import Mathlib

/-
Shallow embedding of the rom-cache cache engine
(src/rom-cache/src/cache.rs, src/rom-cache/src/error.rs).

Modelling conventions:
- Boxed trait objects `Box<dyn Cacheable>` are abstracted as natural-number
  payloads (`Val`); a value's type is identified by its non-zero tag
  (`type_id_usize`), exactly as the engine itself distinguishes values.
- The `AtomicU8` admission word `Flag` is a `Nat` kept below 256; the wrapping
  u8 arithmetic of `fetch_add`/`fetch_sub` is written with explicit `% 256`.
- `T::load()` outcomes are passed in as `loadRes : Option Val` (`none` models
  `Err(io_error)`); `store()` outcomes as `stOk : Bool`.  Each branch of
  `CacheGroup::load` calls each of them at most once.
- Rust panics (`unwrap` on `None`, `unreachable!()`) are the explicit
  `panicked` outcome.
- The group mutex serialises every operation, so the sequential functions
  below are the per-group semantics; lock poisoning (a cross-thread panic
  artefact) is not modelled.  `compare_exchange_weak` is modelled without
  spurious failure.
-/

namespace RomCache

/-- Payload stored in a line; stands for the boxed `dyn Cacheable` object. -/
abbrev Val := Nat

/-- Mirror of `CacheError` (error.rs 7-23); the `Io` payload is dropped. -/
inductive CacheError where
  | Io
  | Missing
  | Poisoned
  | Busy
  | Locked
deriving DecidableEq, Repr

namespace Flag

/-- Mirror of `Flag::write` (cache.rs 228-238):
`compare_exchange_weak(0, 0b0000_0001)` — succeeds iff the whole byte is 0,
returning the new flag word; `none` is `Err(CacheError::Locked)`. -/
def write (f : Nat) : Option Nat :=
  if f = 0 then some 1 else none

/-- Mirror of `Flag::read` (cache.rs 240-247): if bit 0 is clear,
`fetch_add(0b0000_0010)` (wrapping u8 add); `none` is `Locked`. -/
def read (f : Nat) : Option Nat :=
  if f &&& 1 ≠ 1 then some ((f + 2) % 256) else none

/-- Mirror of `Flag::end_write` (cache.rs 249-251): `fetch_and(0b1111_1110)`. -/
def end_write (f : Nat) : Nat := f &&& 254

/-- Mirror of `Flag::end_read` (cache.rs 253-255): `fetch_sub(0b0000_0010)`
(wrapping u8 subtraction, for `f < 256`). -/
def end_read (f : Nat) : Nat := (f + 254) % 256

/-- Mirror of `Flag::is_dirty` (cache.rs 257-259). -/
def is_dirty (f : Nat) : Bool := f &&& 128 != 0

/-- Mirror of `Flag::set_dirty` (cache.rs 261-263): `fetch_or(0b1000_0000)`. -/
def set_dirty (f : Nat) : Nat := f ||| 128

/-- Mirror of `Flag::set_clean` (cache.rs 265-267): `fetch_and(0b0111_1111)`. -/
def set_clean (f : Nat) : Nat := f &&& 127

/-- Mirror of `Flag::in_using` (cache.rs 269-272). -/
def in_using (f : Nat) : Bool := f &&& 127 != 0

end Flag

/-- Mirror of `CacheLine` (cache.rs 202-207): `lru: u8`,
`type_id: usize` (`0` means empty), `inner: Option<Box<dyn Cacheable>>`. -/
structure CacheLine where
  lru : Nat
  type_id : Nat
  inner : Option Val
deriving DecidableEq, Repr

/-- Rust `#[derive(Default)]` for `CacheLine`: all fields zeroed / `None`. -/
def CacheLine.default : CacheLine := ⟨0, 0, none⟩

/-- Mirror of `CacheGroup` (cache.rs 77-82): parallel arrays `lines` and
`flags` (both `[_; L]`); the mutex is the sequential execution order. -/
structure CacheGroup where
  lines : List CacheLine
  flags : List Nat
deriving DecidableEq, Repr

/-- Mirror of `CacheGroup::default` (cache.rs 87-97). -/
def CacheGroup.default (L : Nat) : CacheGroup :=
  ⟨List.replicate L CacheLine.default, List.replicate L 0⟩

/-- Mirror of `CacheSlot` (cache.rs 341-346). -/
inductive CacheSlot where
  | Hit (i : Nat)
  | Empty (i : Nat)
  | Evict (i : Nat)
deriving DecidableEq, Repr

/-- The scan loop of `CacheGroup::slot` (cache.rs 153-167), with the running
index `i` and the `slot` accumulator made explicit. -/
def slotAux (L t : Nat) : List CacheLine → Nat → Option CacheSlot → Option CacheSlot
  | [], _, acc => acc
  | l :: rest, i, acc =>
    if l.type_id = t then some (.Hit i)
    else if l.type_id = 0 then some (.Empty i)
    else if l.lru = L - 1 then slotAux L t rest (i + 1) (some (.Evict i))
    else slotAux L t rest (i + 1) acc

/-- Mirror of `CacheGroup::slot` (cache.rs 153-167); `t` is
`T::type_id_usize()`. -/
def CacheGroup.slot (L t : Nat) (g : CacheGroup) : Option CacheSlot :=
  slotAux L t g.lines 0 none

/-- The LRU bump `lines.iter_mut().for_each(|l| l.lru += 1)` of the Empty and
Evict branches (wrapping u8 add). -/
def bumpLru (lines : List CacheLine) : List CacheLine :=
  lines.map fun l => { l with lru := (l.lru + 1) % 256 }

/-- The filtered LRU bump of the Hit branch (cache.rs 119-123):
`lines.iter_mut().filter(|l| l.lru < lru).for_each(|l| l.lru += 1)`. -/
def bumpBelow (r : Nat) (lines : List CacheLine) : List CacheLine :=
  lines.map fun l => if l.lru < r then { l with lru := (l.lru + 1) % 256 } else l

/-- Assignment `lines[i].lru = r`. -/
def setLru (lines : List CacheLine) (i r : Nat) : List CacheLine :=
  lines.set i { lines.getD i CacheLine.default with lru := r }

/-- Assignments `lines[i].inner = Some(v); lines[i].type_id = t`
(cache.rs 130-131, 142-143). -/
def install (lines : List CacheLine) (i t : Nat) (v : Val) : List CacheLine :=
  lines.set i { lines.getD i CacheLine.default with inner := some v, type_id := t }

/-- Call `lines[i].inner.take()` — the line's value is moved out (cache.rs 139). -/
def takeInner (lines : List CacheLine) (i : Nat) : List CacheLine :=
  lines.set i { lines.getD i CacheLine.default with inner := none }

/-- Calls made to the `Cacheable` contract during one engine operation. -/
inductive Event where
  | loadCall (t : Nat)
  | storeCall (v : Val)
deriving DecidableEq, Repr

/-- Result of `CacheGroup::load`. -/
inductive LoadOutcome where
  | ok (i : Nat)
  | err (e : CacheError)
  | panicked
deriving DecidableEq, Repr

/-- Mirror of `CacheGroup::load` (cache.rs 113-151).  Returns the Rust
result, the post state, and the `Cacheable` calls made (in order). -/
def CacheGroup.load (L t : Nat) (g : CacheGroup) (loadRes : Option Val) (stOk : Bool) :
    LoadOutcome × CacheGroup × List Event :=
  match g.slot L t with
  | some (.Hit i) =>
      let r := (g.lines.getD i CacheLine.default).lru
      (.ok i, { g with lines := setLru (bumpBelow r g.lines) i 0 }, [])
  | some (.Empty i) =>
      let ls := setLru (bumpLru g.lines) i 0
      match loadRes with
      | none => (.err .Io, { g with lines := ls }, [.loadCall t])
      | some v => (.ok i, { g with lines := install ls i t v }, [.loadCall t])
  | some (.Evict i) =>
      let ls := setLru (bumpLru g.lines) i 0
      let f := g.flags.getD i 0
      if Flag.in_using f = false then
        if Flag.is_dirty f then
          match (ls.getD i CacheLine.default).inner with
          | none => (.panicked, { g with lines := ls }, [])
          | some v =>
            let ls' := takeInner ls i
            if stOk then
              let fs := g.flags.set i (Flag.set_clean f)
              match loadRes with
              | none => (.err .Io, ⟨ls', fs⟩, [.storeCall v, .loadCall t])
              | some w => (.ok i, ⟨install ls' i t w, fs⟩, [.storeCall v, .loadCall t])
            else (.err .Io, { g with lines := ls' }, [.storeCall v])
        else
          match loadRes with
          | none => (.err .Io, { g with lines := ls }, [.loadCall t])
          | some w => (.ok i, { g with lines := install ls i t w }, [.loadCall t])
      else (.err .Busy, { g with lines := ls }, [])
  | none => (.panicked, g, [])

/-- Result of `CacheGroup::retrieve`/`retrieve_mut`: a successful guard
exposes the line index and the stored value. -/
inductive RetOutcome where
  | ok (i : Nat) (v : Val)
  | err (e : CacheError)
  | panicked
deriving DecidableEq, Repr

/-- Mirror of `CacheGroup::retrieve` (cache.rs 170-183): `load`, then
`flags[i].read()?`, then `lines[i].inner.as_deref().unwrap()`. -/
def CacheGroup.retrieve (L t : Nat) (g : CacheGroup) (loadRes : Option Val) (stOk : Bool) :
    RetOutcome × CacheGroup × List Event :=
  match CacheGroup.load L t g loadRes stOk with
  | (.panicked, g', ev) => (.panicked, g', ev)
  | (.err e, g', ev) => (.err e, g', ev)
  | (.ok i, g', ev) =>
    match Flag.read (g'.flags.getD i 0) with
    | none => (.err .Locked, g', ev)
    | some f' =>
      let g'' : CacheGroup := { g' with flags := g'.flags.set i f' }
      match (g''.lines.getD i CacheLine.default).inner with
      | none => (.panicked, g'', ev)
      | some v => (.ok i v, g'', ev)

/-- Mirror of `CacheGroup::retrieve_mut` (cache.rs 186-199): `load`, then
`flags[i].write()?`, then `lines[i].inner.as_deref_mut().unwrap()`. -/
def CacheGroup.retrieve_mut (L t : Nat) (g : CacheGroup) (loadRes : Option Val) (stOk : Bool) :
    RetOutcome × CacheGroup × List Event :=
  match CacheGroup.load L t g loadRes stOk with
  | (.panicked, g', ev) => (.panicked, g', ev)
  | (.err e, g', ev) => (.err e, g', ev)
  | (.ok i, g', ev) =>
    match Flag.write (g'.flags.getD i 0) with
    | none => (.err .Locked, g', ev)
    | some f' =>
      let g'' : CacheGroup := { g' with flags := g'.flags.set i f' }
      match (g''.lines.getD i CacheLine.default).inner with
      | none => (.panicked, g'', ev)
      | some v => (.ok i v, g'', ev)

/-- Mirror of `CacheRef::drop` (cache.rs 296-300): `end_read` on the guarded
line's flag. -/
def dropRef (g : CacheGroup) (i : Nat) : CacheGroup :=
  { g with flags := g.flags.set i (Flag.end_read (g.flags.getD i 0)) }

/-- Mirror of `CacheMut::drop` (cache.rs 335-339): `end_write` on the guarded
line's flag. -/
def dropMut (g : CacheGroup) (i : Nat) : CacheGroup :=
  { g with flags := g.flags.set i (Flag.end_write (g.flags.getD i 0)) }

/-- Flag effect of `CacheMut::deref_mut` (cache.rs 324-333): `set_dirty` on
the guarded line's flag, unconditionally. -/
def derefMut (g : CacheGroup) (i : Nat) : CacheGroup :=
  { g with flags := g.flags.set i (Flag.set_dirty (g.flags.getD i 0)) }

/-- The loop body of `CacheGroup::drop` (cache.rs 99-109), recursing over the
parallel `lines`/`flags` arrays.  For each dirty flag:
`lines[i].inner.take().unwrap().store().ok()` — `so` gives each `store`
outcome, which `.ok()` discards; `none` models the `unwrap` panic on an
absent value.  The returned list records the `store` calls made. -/
def dropGroupAux (so : Val → Bool) : List CacheLine → List Nat → Option (List Event)
  | l :: ls, f :: fs =>
    if Flag.is_dirty f then
      match l.inner with
      | none => none
      | some v =>
        let _discarded := so v
        (dropGroupAux so ls fs).map (fun evs => .storeCall v :: evs)
    else dropGroupAux so ls fs
  | _, _ => some []

/-- Mirror of `CacheGroup::drop` (cache.rs 99-109). -/
def dropGroup (so : Val → Bool) (g : CacheGroup) : Option (List Event) :=
  dropGroupAux so g.lines g.flags

/-- One step of the public API on a single group, events a caller can cause
through `Cache::get`/`Cache::get_mut` (which dispatch to
`retrieve`/`retrieve_mut`), guard destruction, and mutable dereference of an
outstanding `CacheMut`.  `t ≠ 0` because `type_id_usize` of a live type is
assumed non-zero (0 is the empty sentinel, spec section 3). -/
inductive Step (L : Nat) : CacheGroup → CacheGroup → Prop
  | get (t : Nat) (loadRes : Option Val) (stOk : Bool) (g : CacheGroup) :
      t ≠ 0 → Step L g (CacheGroup.retrieve L t g loadRes stOk).2.1
  | get_mut (t : Nat) (loadRes : Option Val) (stOk : Bool) (g : CacheGroup) :
      t ≠ 0 → Step L g (CacheGroup.retrieve_mut L t g loadRes stOk).2.1
  | ref_drop (i : Nat) (g : CacheGroup) : Step L g (dropRef g i)
  | mut_drop (i : Nat) (g : CacheGroup) : Step L g (dropMut g i)
  | mut_deref (i : Nat) (g : CacheGroup) : Step L g (derefMut g i)

/-- Group states reachable from a freshly constructed cache. -/
inductive Reach (L : Nat) : CacheGroup → Prop
  | init : Reach L (CacheGroup.default L)
  | step {g g' : CacheGroup} : Reach L g → Step L g g' → Reach L g'

/-- Line accessors used by the statements below. -/
def lineTag (g : CacheGroup) (k : Nat) : Nat := (g.lines.getD k CacheLine.default).type_id

def lineVal (g : CacheGroup) (k : Nat) : Option Val := (g.lines.getD k CacheLine.default).inner

def lineLru (g : CacheGroup) (k : Nat) : Nat := (g.lines.getD k CacheLine.default).lru

def lineFlag (g : CacheGroup) (k : Nat) : Nat := g.flags.getD k 0

/-! ### List plumbing -/

theorem getD_set {α : Type} (ls : List α) (i k : Nat) (x d : α) :
    (ls.set i x).getD k d = if k = i ∧ i < ls.length then x else ls.getD k d := by
  induction ls generalizing i k with
  | nil => simp
  | cons a as ih =>
    cases i with
    | zero =>
      cases k with
      | zero => simp
      | succ k => simp
    | succ i =>
      cases k with
      | zero => simp
      | succ k =>
        simp only [List.set_cons_succ, List.getD_cons_succ, ih i k, List.length_cons]
        by_cases hk : k = i ∧ i < as.length
        · rw [if_pos hk, if_pos (by omega)]
        · rw [if_neg hk, if_neg (by omega)]

theorem getD_oob {α : Type} (ls : List α) (i : Nat) (d : α) (h : ls.length ≤ i) :
    ls.getD i d = d := by
  induction ls generalizing i with
  | nil => simp
  | cons a as ih =>
    cases i with
    | zero => simp at h
    | succ i => simpa using ih i (by simpa using h)

/-! ### Accessor frame lemmas for the line-array operations -/

theorem tag_bumpLru (ls : List CacheLine) (k : Nat) :
    ((bumpLru ls).getD k CacheLine.default).type_id = (ls.getD k CacheLine.default).type_id := by
  induction ls generalizing k with
  | nil => simp [bumpLru]
  | cons a as ih =>
    cases k with
    | zero => simp [bumpLru]
    | succ k => simpa [bumpLru] using ih k

theorem inner_bumpLru (ls : List CacheLine) (k : Nat) :
    ((bumpLru ls).getD k CacheLine.default).inner = (ls.getD k CacheLine.default).inner := by
  induction ls generalizing k with
  | nil => simp [bumpLru]
  | cons a as ih =>
    cases k with
    | zero => simp [bumpLru]
    | succ k => simpa [bumpLru] using ih k

theorem lru_bumpLru (ls : List CacheLine) (k : Nat) (h : k < ls.length) :
    ((bumpLru ls).getD k CacheLine.default).lru
      = ((ls.getD k CacheLine.default).lru + 1) % 256 := by
  induction ls generalizing k with
  | nil => simp at h
  | cons a as ih =>
    cases k with
    | zero => simp [bumpLru]
    | succ k => simpa [bumpLru] using ih k (by simpa using h)

theorem length_bumpLru (ls : List CacheLine) : (bumpLru ls).length = ls.length := by
  simp [bumpLru]

theorem tag_bumpBelow (r : Nat) (ls : List CacheLine) (k : Nat) :
    ((bumpBelow r ls).getD k CacheLine.default).type_id
      = (ls.getD k CacheLine.default).type_id := by
  induction ls generalizing k with
  | nil => simp [bumpBelow]
  | cons a as ih =>
    cases k with
    | zero =>
      simp only [bumpBelow, List.map_cons, List.getD_cons_zero]
      split <;> rfl
    | succ k => simpa [bumpBelow] using ih k

theorem inner_bumpBelow (r : Nat) (ls : List CacheLine) (k : Nat) :
    ((bumpBelow r ls).getD k CacheLine.default).inner
      = (ls.getD k CacheLine.default).inner := by
  induction ls generalizing k with
  | nil => simp [bumpBelow]
  | cons a as ih =>
    cases k with
    | zero =>
      simp only [bumpBelow, List.map_cons, List.getD_cons_zero]
      split <;> rfl
    | succ k => simpa [bumpBelow] using ih k

theorem lru_bumpBelow (r : Nat) (ls : List CacheLine) (k : Nat) (h : k < ls.length) :
    ((bumpBelow r ls).getD k CacheLine.default).lru
      = if (ls.getD k CacheLine.default).lru < r
        then ((ls.getD k CacheLine.default).lru + 1) % 256
        else (ls.getD k CacheLine.default).lru := by
  induction ls generalizing k with
  | nil => simp at h
  | cons a as ih =>
    cases k with
    | zero =>
      simp only [bumpBelow, List.map_cons, List.getD_cons_zero]
      split <;> simp_all
    | succ k => simpa [bumpBelow] using ih k (by simpa using h)

theorem length_bumpBelow (r : Nat) (ls : List CacheLine) :
    (bumpBelow r ls).length = ls.length := by
  simp [bumpBelow]

theorem tag_setLru (ls : List CacheLine) (i r k : Nat) :
    ((setLru ls i r).getD k CacheLine.default).type_id
      = (ls.getD k CacheLine.default).type_id := by
  simp only [setLru, getD_set]
  split
  · rename_i h
    rw [h.1]
  · rfl

theorem inner_setLru (ls : List CacheLine) (i r k : Nat) :
    ((setLru ls i r).getD k CacheLine.default).inner
      = (ls.getD k CacheLine.default).inner := by
  simp only [setLru, getD_set]
  split
  · rename_i h
    rw [h.1]
  · rfl

theorem lru_setLru_self (ls : List CacheLine) (i r : Nat) (h : i < ls.length) :
    ((setLru ls i r).getD i CacheLine.default).lru = r := by
  simp [setLru, getD_set, h]

theorem lru_setLru_of_ne (ls : List CacheLine) (i r k : Nat) (h : k ≠ i) :
    ((setLru ls i r).getD k CacheLine.default).lru = (ls.getD k CacheLine.default).lru := by
  simp only [setLru, getD_set]
  split
  · rename_i hc
    exact absurd hc.1 h
  · rfl

theorem length_setLru (ls : List CacheLine) (i r : Nat) :
    (setLru ls i r).length = ls.length := by
  simp [setLru]

theorem lru_install (ls : List CacheLine) (i t : Nat) (v : Val) (k : Nat) :
    ((install ls i t v).getD k CacheLine.default).lru = (ls.getD k CacheLine.default).lru := by
  simp only [install, getD_set]
  split
  · rename_i h
    rw [h.1]
  · rfl

theorem tag_install_self (ls : List CacheLine) (i t : Nat) (v : Val) (h : i < ls.length) :
    ((install ls i t v).getD i CacheLine.default).type_id = t := by
  simp [install, getD_set, h]

theorem tag_install_of_ne (ls : List CacheLine) (i t : Nat) (v : Val) (k : Nat) (h : k ≠ i) :
    ((install ls i t v).getD k CacheLine.default).type_id
      = (ls.getD k CacheLine.default).type_id := by
  simp only [install, getD_set]
  split
  · rename_i hc
    exact absurd hc.1 h
  · rfl

theorem inner_install_self (ls : List CacheLine) (i t : Nat) (v : Val) (h : i < ls.length) :
    ((install ls i t v).getD i CacheLine.default).inner = some v := by
  simp [install, getD_set, h]

theorem inner_install_of_ne (ls : List CacheLine) (i t : Nat) (v : Val) (k : Nat) (h : k ≠ i) :
    ((install ls i t v).getD k CacheLine.default).inner
      = (ls.getD k CacheLine.default).inner := by
  simp only [install, getD_set]
  split
  · rename_i hc
    exact absurd hc.1 h
  · rfl

theorem length_install (ls : List CacheLine) (i t : Nat) (v : Val) :
    (install ls i t v).length = ls.length := by
  simp [install]

theorem lru_takeInner (ls : List CacheLine) (i k : Nat) :
    ((takeInner ls i).getD k CacheLine.default).lru = (ls.getD k CacheLine.default).lru := by
  simp only [takeInner, getD_set]
  split
  · rename_i h
    rw [h.1]
  · rfl

theorem tag_takeInner (ls : List CacheLine) (i k : Nat) :
    ((takeInner ls i).getD k CacheLine.default).type_id
      = (ls.getD k CacheLine.default).type_id := by
  simp only [takeInner, getD_set]
  split
  · rename_i h
    rw [h.1]
  · rfl

theorem inner_takeInner_self (ls : List CacheLine) (i : Nat) (h : i < ls.length) :
    ((takeInner ls i).getD i CacheLine.default).inner = none := by
  simp [takeInner, getD_set, h]

theorem inner_takeInner_of_ne (ls : List CacheLine) (i k : Nat) (h : k ≠ i) :
    ((takeInner ls i).getD k CacheLine.default).inner
      = (ls.getD k CacheLine.default).inner := by
  simp only [takeInner, getD_set]
  split
  · rename_i hc
    exact absurd hc.1 h
  · rfl

theorem length_takeInner (ls : List CacheLine) (i : Nat) :
    (takeInner ls i).length = ls.length := by
  simp [takeInner]

/-! ### Soundness of the slot scan -/

theorem slotAux_hit_sound (L t : Nat) (lines : List CacheLine) :
    ∀ (off : Nat) (acc : Option CacheSlot) (j : Nat),
      (∀ m, acc ≠ some (CacheSlot.Hit m)) →
      slotAux L t lines off acc = some (CacheSlot.Hit j) →
      ∃ k, k < lines.length ∧ j = off + k ∧
        (lines.getD k CacheLine.default).type_id = t ∧
        ∀ m, m < k → (lines.getD m CacheLine.default).type_id ≠ t ∧
          (lines.getD m CacheLine.default).type_id ≠ 0 := by
  induction lines with
  | nil =>
    intro off acc j hacc h
    rw [slotAux] at h
    exact absurd h (hacc j)
  | cons l rest ih =>
    intro off acc j hacc h
    rw [slotAux] at h
    by_cases h1 : l.type_id = t
    · rw [if_pos h1] at h
      simp only [Option.some.injEq, CacheSlot.Hit.injEq] at h
      exact ⟨0, by simp, by omega, by simpa using h1, by omega⟩
    · rw [if_neg h1] at h
      by_cases h2 : l.type_id = 0
      · rw [if_pos h2] at h
        simp at h
      · rw [if_neg h2] at h
        have next : ∃ acc', slotAux L t rest (off + 1) acc' = some (CacheSlot.Hit j)
            ∧ ∀ m, acc' ≠ some (CacheSlot.Hit m) := by
          by_cases h3 : l.lru = L - 1
          · rw [if_pos h3] at h
            exact ⟨some (CacheSlot.Evict off), h, by simp⟩
          · rw [if_neg h3] at h
            exact ⟨acc, h, hacc⟩
        obtain ⟨acc', h', hacc'⟩ := next
        obtain ⟨k, hk, hj, htag, hbefore⟩ := ih (off + 1) acc' j hacc' h'
        refine ⟨k + 1, by simpa using hk, by omega, by simpa using htag, ?_⟩
        intro m hm
        cases m with
        | zero => exact ⟨by simpa using h1, by simpa using h2⟩
        | succ m => simpa using hbefore m (by omega)

theorem slotAux_empty_sound (L t : Nat) (lines : List CacheLine) :
    ∀ (off : Nat) (acc : Option CacheSlot) (j : Nat),
      (∀ m, acc ≠ some (CacheSlot.Empty m)) →
      slotAux L t lines off acc = some (CacheSlot.Empty j) →
      ∃ k, k < lines.length ∧ j = off + k ∧
        (lines.getD k CacheLine.default).type_id = 0 ∧
        ∀ m, m < k → (lines.getD m CacheLine.default).type_id ≠ t ∧
          (lines.getD m CacheLine.default).type_id ≠ 0 := by
  induction lines with
  | nil =>
    intro off acc j hacc h
    rw [slotAux] at h
    exact absurd h (hacc j)
  | cons l rest ih =>
    intro off acc j hacc h
    rw [slotAux] at h
    by_cases h1 : l.type_id = t
    · rw [if_pos h1] at h
      simp at h
    · rw [if_neg h1] at h
      by_cases h2 : l.type_id = 0
      · rw [if_pos h2] at h
        simp only [Option.some.injEq, CacheSlot.Empty.injEq] at h
        exact ⟨0, by simp, by omega, by simpa using h2, by omega⟩
      · rw [if_neg h2] at h
        have next : ∃ acc', slotAux L t rest (off + 1) acc' = some (CacheSlot.Empty j)
            ∧ ∀ m, acc' ≠ some (CacheSlot.Empty m) := by
          by_cases h3 : l.lru = L - 1
          · rw [if_pos h3] at h
            exact ⟨some (CacheSlot.Evict off), h, by simp⟩
          · rw [if_neg h3] at h
            exact ⟨acc, h, hacc⟩
        obtain ⟨acc', h', hacc'⟩ := next
        obtain ⟨k, hk, hj, htag, hbefore⟩ := ih (off + 1) acc' j hacc' h'
        refine ⟨k + 1, by simpa using hk, by omega, by simpa using htag, ?_⟩
        intro m hm
        cases m with
        | zero => exact ⟨by simpa using h1, by simpa using h2⟩
        | succ m => simpa using hbefore m (by omega)

theorem slotAux_evict_sound (L t : Nat) (lines : List CacheLine) :
    ∀ (off : Nat) (acc : Option CacheSlot) (j : Nat),
      slotAux L t lines off acc = some (CacheSlot.Evict j) →
      (∀ m, m < lines.length → (lines.getD m CacheLine.default).type_id ≠ t ∧
        (lines.getD m CacheLine.default).type_id ≠ 0) ∧
      (acc = some (CacheSlot.Evict j) ∨
        ∃ k, k < lines.length ∧ j = off + k ∧
          (lines.getD k CacheLine.default).lru = L - 1) := by
  induction lines with
  | nil =>
    intro off acc j h
    rw [slotAux] at h
    exact ⟨fun m hm => by simp at hm, Or.inl h⟩
  | cons l rest ih =>
    intro off acc j h
    rw [slotAux] at h
    by_cases h1 : l.type_id = t
    · rw [if_pos h1] at h
      simp at h
    · rw [if_neg h1] at h
      by_cases h2 : l.type_id = 0
      · rw [if_pos h2] at h
        simp at h
      · rw [if_neg h2] at h
        by_cases h3 : l.lru = L - 1
        · rw [if_pos h3] at h
          obtain ⟨htags, hdisj⟩ := ih (off + 1) (some (CacheSlot.Evict off)) j h
          constructor
          · intro m hm
            cases m with
            | zero => exact ⟨by simpa using h1, by simpa using h2⟩
            | succ m => simpa using htags m (by simpa using hm)
          · rcases hdisj with hacc | ⟨k, hk, hj, hlru⟩
            · simp only [Option.some.injEq, CacheSlot.Evict.injEq] at hacc
              exact Or.inr ⟨0, by simp, by omega, by simpa using h3⟩
            · exact Or.inr ⟨k + 1, by simpa using hk, by omega, by simpa using hlru⟩
        · rw [if_neg h3] at h
          obtain ⟨htags, hdisj⟩ := ih (off + 1) acc j h
          constructor
          · intro m hm
            cases m with
            | zero => exact ⟨by simpa using h1, by simpa using h2⟩
            | succ m => simpa using htags m (by simpa using hm)
          · rcases hdisj with hacc | ⟨k, hk, hj, hlru⟩
            · exact Or.inl hacc
            · exact Or.inr ⟨k + 1, by simpa using hk, by omega, by simpa using hlru⟩

theorem slot_hit_facts {L t : Nat} {g : CacheGroup} {i : Nat}
    (h : g.slot L t = some (CacheSlot.Hit i)) :
    i < g.lines.length ∧ lineTag g i = t ∧
      ∀ m, m < i → lineTag g m ≠ t ∧ lineTag g m ≠ 0 := by
  obtain ⟨k, hk, hj, htag, hbefore⟩ :=
    slotAux_hit_sound L t g.lines 0 none i (by simp) h
  have hik : i = k := by omega
  subst hik
  exact ⟨hk, htag, hbefore⟩

theorem slot_empty_facts {L t : Nat} {g : CacheGroup} {i : Nat}
    (h : g.slot L t = some (CacheSlot.Empty i)) :
    i < g.lines.length ∧ lineTag g i = 0 ∧
      ∀ m, m < i → lineTag g m ≠ t ∧ lineTag g m ≠ 0 := by
  obtain ⟨k, hk, hj, htag, hbefore⟩ :=
    slotAux_empty_sound L t g.lines 0 none i (by simp) h
  have hik : i = k := by omega
  subst hik
  exact ⟨hk, htag, hbefore⟩

theorem slot_evict_facts {L t : Nat} {g : CacheGroup} {i : Nat}
    (h : g.slot L t = some (CacheSlot.Evict i)) :
    i < g.lines.length ∧ lineLru g i = L - 1 ∧
      ∀ m, m < g.lines.length → lineTag g m ≠ t ∧ lineTag g m ≠ 0 := by
  obtain ⟨htags, hdisj⟩ := slotAux_evict_sound L t g.lines 0 none i h
  rcases hdisj with hacc | ⟨k, hk, hj, hlru⟩
  · simp at hacc
  · have hik : i = k := by omega
    subst hik
    exact ⟨hk, hlru, htags⟩

/-! ### Completeness of the slot scan -/

theorem slotAux_stable (L t : Nat) (lines : List CacheLine) :
    ∀ (off : Nat) (acc : Option CacheSlot),
      (∀ m, m < lines.length → (lines.getD m CacheLine.default).type_id ≠ t ∧
        (lines.getD m CacheLine.default).type_id ≠ 0 ∧
        (lines.getD m CacheLine.default).lru ≠ L - 1) →
      slotAux L t lines off acc = acc := by
  induction lines with
  | nil => intro off acc _; rw [slotAux]
  | cons l rest ih =>
    intro off acc hall
    have h0 := hall 0 (by simp)
    simp only [List.getD_cons_zero] at h0
    rw [slotAux, if_neg h0.1, if_neg h0.2.1, if_neg h0.2.2]
    exact ih (off + 1) acc fun m hm => by simpa using hall (m + 1) (by simpa using hm)

theorem slotAux_hit_complete (L t : Nat) (lines : List CacheLine) :
    ∀ (off : Nat) (acc : Option CacheSlot) (k : Nat),
      k < lines.length →
      (lines.getD k CacheLine.default).type_id = t →
      (∀ m, m < k → (lines.getD m CacheLine.default).type_id ≠ t ∧
        (lines.getD m CacheLine.default).type_id ≠ 0) →
      slotAux L t lines off acc = some (CacheSlot.Hit (off + k)) := by
  induction lines with
  | nil => intro off acc k hk; simp at hk
  | cons l rest ih =>
    intro off acc k hk htag hbefore
    cases k with
    | zero =>
      simp only [List.getD_cons_zero] at htag
      rw [slotAux, if_pos htag]
      simp
    | succ k =>
      have h0 := hbefore 0 (by omega)
      simp only [List.getD_cons_zero] at h0
      rw [slotAux, if_neg h0.1, if_neg h0.2]
      have step : ∀ acc', slotAux L t rest (off + 1) acc' = some (CacheSlot.Hit (off + 1 + k)) :=
        fun acc' => ih (off + 1) acc' k (by simpa using hk) (by simpa using htag)
          (fun m hm => by simpa using hbefore (m + 1) (by omega))
      have harith : off + (k + 1) = off + 1 + k := by omega
      rw [harith]
      by_cases h3 : l.lru = L - 1
      · rw [if_pos h3]; exact step _
      · rw [if_neg h3]; exact step _

theorem slotAux_empty_complete (L t : Nat) (ht : t ≠ 0) (lines : List CacheLine) :
    ∀ (off : Nat) (acc : Option CacheSlot) (k : Nat),
      k < lines.length →
      (lines.getD k CacheLine.default).type_id = 0 →
      (∀ m, m < k → (lines.getD m CacheLine.default).type_id ≠ t ∧
        (lines.getD m CacheLine.default).type_id ≠ 0) →
      slotAux L t lines off acc = some (CacheSlot.Empty (off + k)) := by
  induction lines with
  | nil => intro off acc k hk; simp at hk
  | cons l rest ih =>
    intro off acc k hk htag hbefore
    cases k with
    | zero =>
      simp only [List.getD_cons_zero] at htag
      have hnt : ¬ l.type_id = t := by rw [htag]; exact fun h => ht h.symm
      rw [slotAux, if_neg hnt, if_pos htag]
      simp
    | succ k =>
      have h0 := hbefore 0 (by omega)
      simp only [List.getD_cons_zero] at h0
      rw [slotAux, if_neg h0.1, if_neg h0.2]
      have step : ∀ acc', slotAux L t rest (off + 1) acc' = some (CacheSlot.Empty (off + 1 + k)) :=
        fun acc' => ih (off + 1) acc' k (by simpa using hk) (by simpa using htag)
          (fun m hm => by simpa using hbefore (m + 1) (by omega))
      have harith : off + (k + 1) = off + 1 + k := by omega
      rw [harith]
      by_cases h3 : l.lru = L - 1
      · rw [if_pos h3]; exact step _
      · rw [if_neg h3]; exact step _

theorem slotAux_evict_complete (L t : Nat) (lines : List CacheLine) :
    ∀ (off : Nat) (acc : Option CacheSlot) (k : Nat),
      (∀ m, m < lines.length → (lines.getD m CacheLine.default).type_id ≠ t ∧
        (lines.getD m CacheLine.default).type_id ≠ 0) →
      k < lines.length →
      (lines.getD k CacheLine.default).lru = L - 1 →
      (∀ m, k < m → m < lines.length → (lines.getD m CacheLine.default).lru ≠ L - 1) →
      slotAux L t lines off acc = some (CacheSlot.Evict (off + k)) := by
  induction lines with
  | nil => intro off acc k _ hk; simp at hk
  | cons l rest ih =>
    intro off acc k hall hk hlru hafter
    have h0 := hall 0 (by simp)
    simp only [List.getD_cons_zero] at h0
    rw [slotAux, if_neg h0.1, if_neg h0.2]
    cases k with
    | zero =>
      simp only [List.getD_cons_zero] at hlru
      rw [if_pos hlru]
      have : slotAux L t rest (off + 1) (some (CacheSlot.Evict off)) =
          some (CacheSlot.Evict off) := by
        apply slotAux_stable
        intro m hm
        refine ⟨(hall (m + 1) (by simpa using hm)).1, (hall (m + 1) (by simpa using hm)).2, ?_⟩
        simpa using hafter (m + 1) (by omega) (by simpa using hm)
      simpa using this
    | succ k =>
      have step : ∀ acc', slotAux L t rest (off + 1) acc' = some (CacheSlot.Evict (off + 1 + k)) :=
        fun acc' => ih (off + 1) acc' k
          (fun m hm => by simpa using hall (m + 1) (by simpa using hm))
          (by simpa using hk) (by simpa using hlru)
          (fun m hm1 hm2 => by simpa using hafter (m + 1) (by omega) (by simpa using hm2))
      have harith : off + (k + 1) = off + 1 + k := by omega
      rw [harith]
      by_cases h3 : l.lru = L - 1
      · rw [if_pos h3]; exact step _
      · rw [if_neg h3]; exact step _

/-! ### Branch equations for `CacheGroup.load` -/

theorem load_hit_eq {L t : Nat} {g : CacheGroup} {i : Nat}
    (hs : g.slot L t = some (CacheSlot.Hit i)) (lr : Option Val) (so : Bool) :
    CacheGroup.load L t g lr so =
      (.ok i,
        { g with lines := setLru (bumpBelow ((g.lines.getD i CacheLine.default).lru) g.lines) i 0 },
        []) := by
  simp only [CacheGroup.load, hs]

theorem load_empty_fail_eq {L t : Nat} {g : CacheGroup} {i : Nat}
    (hs : g.slot L t = some (CacheSlot.Empty i)) (so : Bool) :
    CacheGroup.load L t g none so =
      (.err .Io, { g with lines := setLru (bumpLru g.lines) i 0 }, [.loadCall t]) := by
  simp only [CacheGroup.load, hs]

theorem load_empty_ok_eq {L t : Nat} {g : CacheGroup} {i : Nat}
    (hs : g.slot L t = some (CacheSlot.Empty i)) (v : Val) (so : Bool) :
    CacheGroup.load L t g (some v) so =
      (.ok i, { g with lines := install (setLru (bumpLru g.lines) i 0) i t v },
        [.loadCall t]) := by
  simp only [CacheGroup.load, hs]

theorem load_busy_eq {L t : Nat} {g : CacheGroup} {i : Nat}
    (hs : g.slot L t = some (CacheSlot.Evict i))
    (hin : Flag.in_using (g.flags.getD i 0) = true) (lr : Option Val) (so : Bool) :
    CacheGroup.load L t g lr so =
      (.err .Busy, { g with lines := setLru (bumpLru g.lines) i 0 }, []) := by
  simp only [CacheGroup.load, hs, hin]
  simp

theorem load_evict_clean_ok_eq {L t : Nat} {g : CacheGroup} {i : Nat}
    (hs : g.slot L t = some (CacheSlot.Evict i))
    (hin : Flag.in_using (g.flags.getD i 0) = false)
    (hd : Flag.is_dirty (g.flags.getD i 0) = false) (v : Val) (so : Bool) :
    CacheGroup.load L t g (some v) so =
      (.ok i, { g with lines := install (setLru (bumpLru g.lines) i 0) i t v },
        [.loadCall t]) := by
  simp only [CacheGroup.load, hs, hin, hd]
  simp

theorem load_evict_clean_fail_eq {L t : Nat} {g : CacheGroup} {i : Nat}
    (hs : g.slot L t = some (CacheSlot.Evict i))
    (hin : Flag.in_using (g.flags.getD i 0) = false)
    (hd : Flag.is_dirty (g.flags.getD i 0) = false) (so : Bool) :
    CacheGroup.load L t g none so =
      (.err .Io, { g with lines := setLru (bumpLru g.lines) i 0 }, [.loadCall t]) := by
  simp only [CacheGroup.load, hs, hin, hd]
  simp

theorem load_evict_dirty_store_fail_eq {L t : Nat} {g : CacheGroup} {i v : Nat}
    (hs : g.slot L t = some (CacheSlot.Evict i))
    (hin : Flag.in_using (g.flags.getD i 0) = false)
    (hd : Flag.is_dirty (g.flags.getD i 0) = true)
    (hv : lineVal g i = some v) (lr : Option Val) :
    CacheGroup.load L t g lr false =
      (.err .Io, { g with lines := takeInner (setLru (bumpLru g.lines) i 0) i },
        [.storeCall v]) := by
  have hv' : ((setLru (bumpLru g.lines) i 0).getD i CacheLine.default).inner = some v := by
    rw [inner_setLru, inner_bumpLru]; exact hv
  simp only [CacheGroup.load, hs, hin, hd, hv']
  simp

theorem load_evict_dirty_ok_eq {L t : Nat} {g : CacheGroup} {i v : Nat}
    (hs : g.slot L t = some (CacheSlot.Evict i))
    (hin : Flag.in_using (g.flags.getD i 0) = false)
    (hd : Flag.is_dirty (g.flags.getD i 0) = true)
    (hv : lineVal g i = some v) (w : Val) :
    CacheGroup.load L t g (some w) true =
      (.ok i,
        ⟨install (takeInner (setLru (bumpLru g.lines) i 0) i) i t w,
          g.flags.set i (Flag.set_clean (g.flags.getD i 0))⟩,
        [.storeCall v, .loadCall t]) := by
  have hv' : ((setLru (bumpLru g.lines) i 0).getD i CacheLine.default).inner = some v := by
    rw [inner_setLru, inner_bumpLru]; exact hv
  simp only [CacheGroup.load, hs, hin, hd, hv']
  simp

theorem load_evict_dirty_load_fail_eq {L t : Nat} {g : CacheGroup} {i v : Nat}
    (hs : g.slot L t = some (CacheSlot.Evict i))
    (hin : Flag.in_using (g.flags.getD i 0) = false)
    (hd : Flag.is_dirty (g.flags.getD i 0) = true)
    (hv : lineVal g i = some v) :
    CacheGroup.load L t g none true =
      (.err .Io,
        ⟨takeInner (setLru (bumpLru g.lines) i 0) i,
          g.flags.set i (Flag.set_clean (g.flags.getD i 0))⟩,
        [.storeCall v, .loadCall t]) := by
  have hv' : ((setLru (bumpLru g.lines) i 0).getD i CacheLine.default).inner = some v := by
    rw [inner_setLru, inner_bumpLru]; exact hv
  simp only [CacheGroup.load, hs, hin, hd, hv']
  simp

theorem load_evict_dirty_unwrap_eq {L t : Nat} {g : CacheGroup} {i : Nat}
    (hs : g.slot L t = some (CacheSlot.Evict i))
    (hin : Flag.in_using (g.flags.getD i 0) = false)
    (hd : Flag.is_dirty (g.flags.getD i 0) = true)
    (hv : lineVal g i = none) (lr : Option Val) (so : Bool) :
    CacheGroup.load L t g lr so =
      (.panicked, { g with lines := setLru (bumpLru g.lines) i 0 }, []) := by
  have hv' : ((setLru (bumpLru g.lines) i 0).getD i CacheLine.default).inner = none := by
    rw [inner_setLru, inner_bumpLru]; exact hv
  simp only [CacheGroup.load, hs, hin, hd, hv']
  simp

theorem load_none_eq {L t : Nat} {g : CacheGroup}
    (hs : g.slot L t = none) (lr : Option Val) (so : Bool) :
    CacheGroup.load L t g lr so = (.panicked, g, []) := by
  simp only [CacheGroup.load, hs]

/-! ### Facts about a successful `load` -/

theorem load_ok_facts {L t : Nat} {g : CacheGroup} {lr : Option Val} {so : Bool}
    {i : Nat} {g' : CacheGroup} {ev : List Event}
    (h : CacheGroup.load L t g lr so = (.ok i, g', ev)) :
    i < g.lines.length ∧
    g'.lines.length = g.lines.length ∧
    g'.flags.length = g.flags.length ∧
    lineTag g' i = t ∧
    lineLru g' i = 0 ∧
    (∀ m, m < i → lineTag g' m ≠ t ∧ lineTag g' m ≠ 0) := by
  rcases hs : g.slot L t with _ | s
  · rw [load_none_eq hs lr so] at h
    simp at h
  rcases s with j | j | j
  · -- Hit
    rw [load_hit_eq hs lr so] at h
    simp only [Prod.mk.injEq, LoadOutcome.ok.injEq] at h
    obtain ⟨hij, hg', _⟩ := h
    subst hij
    obtain ⟨hlen, htag, hbefore⟩ := slot_hit_facts hs
    subst hg'
    refine ⟨hlen, ?_, rfl, ?_, ?_, ?_⟩
    · simp [length_setLru, length_bumpBelow]
    · simp only [lineTag]
      rw [tag_setLru, tag_bumpBelow]
      exact htag
    · simp only [lineLru]
      rw [lru_setLru_self]
      rw [length_bumpBelow]
      exact hlen
    · intro m hm
      simp only [lineTag]
      rw [tag_setLru, tag_bumpBelow]
      exact hbefore m hm
  · -- Empty
    rcases lr with _ | v
    · rw [load_empty_fail_eq hs so] at h
      simp at h
    rw [load_empty_ok_eq hs v so] at h
    simp only [Prod.mk.injEq, LoadOutcome.ok.injEq] at h
    obtain ⟨hij, hg', _⟩ := h
    subst hij
    obtain ⟨hlen, _, hbefore⟩ := slot_empty_facts hs
    subst hg'
    have hlen' : j < (setLru (bumpLru g.lines) j 0).length := by
      rw [length_setLru, length_bumpLru]; exact hlen
    refine ⟨hlen, ?_, rfl, ?_, ?_, ?_⟩
    · simp [length_install, length_setLru, length_bumpLru]
    · simp only [lineTag]
      rw [tag_install_self _ _ _ _ hlen']
    · simp only [lineLru]
      rw [lru_install, lru_setLru_self]
      rw [length_bumpLru]; exact hlen
    · intro m hm
      have hne : m ≠ j := by omega
      simp only [lineTag]
      rw [tag_install_of_ne _ _ _ _ _ hne, tag_setLru, tag_bumpLru]
      exact hbefore m hm
  · -- Evict
    obtain hsf := slot_evict_facts hs
    obtain ⟨hlen, _, hall⟩ := hsf
    cases hin : Flag.in_using (g.flags.getD j 0) with
    | true =>
      rw [load_busy_eq hs hin lr so] at h
      simp at h
    | false =>
      cases hd : Flag.is_dirty (g.flags.getD j 0) with
      | false =>
        rcases lr with _ | v
        · rw [load_evict_clean_fail_eq hs hin hd so] at h
          simp at h
        rw [load_evict_clean_ok_eq hs hin hd v so] at h
        simp only [Prod.mk.injEq, LoadOutcome.ok.injEq] at h
        obtain ⟨hij, hg', _⟩ := h
        subst hij
        subst hg'
        have hlen' : j < (setLru (bumpLru g.lines) j 0).length := by
          rw [length_setLru, length_bumpLru]; exact hlen
        refine ⟨hlen, ?_, rfl, ?_, ?_, ?_⟩
        · simp [length_install, length_setLru, length_bumpLru]
        · simp only [lineTag]
          rw [tag_install_self _ _ _ _ hlen']
        · simp only [lineLru]
          rw [lru_install, lru_setLru_self]
          rw [length_bumpLru]; exact hlen
        · intro m hm
          have hne : m ≠ j := by omega
          simp only [lineTag]
          rw [tag_install_of_ne _ _ _ _ _ hne, tag_setLru, tag_bumpLru]
          exact hall m (by omega)
      | true =>
        rcases hv : lineVal g j with _ | v
        · rw [load_evict_dirty_unwrap_eq hs hin hd hv lr so] at h
          simp at h
        cases so with
        | false =>
          rw [load_evict_dirty_store_fail_eq hs hin hd hv lr] at h
          simp at h
        | true =>
          rcases lr with _ | w
          · rw [load_evict_dirty_load_fail_eq hs hin hd hv] at h
            simp at h
          rw [load_evict_dirty_ok_eq hs hin hd hv w] at h
          simp only [Prod.mk.injEq, LoadOutcome.ok.injEq] at h
          obtain ⟨hij, hg', _⟩ := h
          subst hij
          subst hg'
          have hlen' : j < (takeInner (setLru (bumpLru g.lines) j 0) j).length := by
            rw [length_takeInner, length_setLru, length_bumpLru]; exact hlen
          refine ⟨hlen, ?_, ?_, ?_, ?_, ?_⟩
          · simp [length_install, length_takeInner, length_setLru, length_bumpLru]
          · simp [List.length_set]
          · simp only [lineTag]
            rw [tag_install_self _ _ _ _ hlen']
          · simp only [lineLru]
            rw [lru_install, lru_takeInner, lru_setLru_self]
            rw [length_bumpLru]; exact hlen
          · intro m hm
            have hne : m ≠ j := by omega
            simp only [lineTag]
            rw [tag_install_of_ne _ _ _ _ _ hne, tag_takeInner, tag_setLru, tag_bumpLru]
            exact hall m (by omega)

/-- A second `Flag::read` after a successful one also succeeds: adding 2
keeps bit 0 clear (mod-256 wraparound included). -/
theorem read_parity {f f' : Nat} (h : Flag.read f = some f') :
    Flag.read f' = some ((f' + 2) % 256) := by
  unfold Flag.read at h ⊢
  by_cases hc : f &&& 1 ≠ 1
  · rw [if_pos hc] at h
    simp only [Option.some.injEq] at h
    subst h
    have hc2 : ((f + 2) % 256) &&& 1 ≠ 1 := by
      rw [Nat.and_one_is_mod] at hc ⊢
      rw [Nat.mod_mod_of_dvd (f + 2) (by norm_num)]
      omega
    rw [if_pos hc2]
  · rw [if_neg hc] at h
    simp at h

/-! ### Facts about `retrieve` and `retrieve_mut` -/

theorem retrieve_lines_eq (L t : Nat) (g : CacheGroup) (lr : Option Val) (so : Bool) :
    ((CacheGroup.retrieve L t g lr so).2.1).lines
      = ((CacheGroup.load L t g lr so).2.1).lines := by
  unfold CacheGroup.retrieve
  rcases hl : CacheGroup.load L t g lr so with ⟨res, g', ev'⟩
  cases res with
  | panicked => rfl
  | err e => rfl
  | ok i =>
    dsimp only
    rcases hr : Flag.read (g'.flags.getD i 0) with _ | f'
    · rfl
    · dsimp only
      rcases hv : (g'.lines.getD i CacheLine.default).inner with _ | w
      · rfl
      · rfl

theorem retrieve_mut_lines_eq (L t : Nat) (g : CacheGroup) (lr : Option Val) (so : Bool) :
    ((CacheGroup.retrieve_mut L t g lr so).2.1).lines
      = ((CacheGroup.load L t g lr so).2.1).lines := by
  unfold CacheGroup.retrieve_mut
  rcases hl : CacheGroup.load L t g lr so with ⟨res, g', ev'⟩
  cases res with
  | panicked => rfl
  | err e => rfl
  | ok i =>
    dsimp only
    rcases hr : Flag.write (g'.flags.getD i 0) with _ | f'
    · rfl
    · dsimp only
      rcases hv : (g'.lines.getD i CacheLine.default).inner with _ | w
      · rfl
      · rfl

theorem retrieve_ok_facts {L t : Nat} {g : CacheGroup} {lr : Option Val} {so : Bool}
    {i : Nat} {v : Val} {g2 : CacheGroup} {ev : List Event}
    (h : CacheGroup.retrieve L t g lr so = (.ok i v, g2, ev)) :
    ∃ g' f', CacheGroup.load L t g lr so = (.ok i, g', ev) ∧
      Flag.read (g'.flags.getD i 0) = some f' ∧
      g2 = { g' with flags := g'.flags.set i f' } ∧
      lineVal g' i = some v := by
  unfold CacheGroup.retrieve at h
  rcases hl : CacheGroup.load L t g lr so with ⟨res, g', ev'⟩
  rw [hl] at h
  cases res with
  | panicked => simp at h
  | err e => simp at h
  | ok i' =>
    dsimp only at h
    rcases hr : Flag.read (g'.flags.getD i' 0) with _ | f'
    · rw [hr] at h; simp at h
    · rw [hr] at h
      dsimp only at h
      rcases hv : (g'.lines.getD i' CacheLine.default).inner with _ | w
      · rw [hv] at h; simp at h
      · rw [hv] at h
        simp only [Prod.mk.injEq, RetOutcome.ok.injEq] at h
        obtain ⟨⟨hii, hvv⟩, hg2, hev⟩ := h
        subst hii
        subst hvv
        subst hev
        exact ⟨g', f', rfl, hr, hg2.symm, by simpa [lineVal] using hv⟩

theorem retrieve_mut_ok_facts {L t : Nat} {g : CacheGroup} {lr : Option Val} {so : Bool}
    {i : Nat} {v : Val} {g2 : CacheGroup} {ev : List Event}
    (h : CacheGroup.retrieve_mut L t g lr so = (.ok i v, g2, ev)) :
    ∃ g', CacheGroup.load L t g lr so = (.ok i, g', ev) ∧
      g'.flags.getD i 0 = 0 ∧
      g2 = { g' with flags := g'.flags.set i 1 } ∧
      lineVal g' i = some v := by
  unfold CacheGroup.retrieve_mut at h
  rcases hl : CacheGroup.load L t g lr so with ⟨res, g', ev'⟩
  rw [hl] at h
  cases res with
  | panicked => simp at h
  | err e => simp at h
  | ok i' =>
    dsimp only at h
    rcases hr : Flag.write (g'.flags.getD i' 0) with _ | f'
    · rw [hr] at h; simp at h
    · rw [hr] at h
      dsimp only at h
      have hzero : g'.flags.getD i' 0 = 0 ∧ f' = 1 := by
        unfold Flag.write at hr
        by_cases hz : g'.flags.getD i' 0 = 0
        · rw [if_pos hz] at hr
          simp only [Option.some.injEq] at hr
          exact ⟨hz, hr.symm⟩
        · rw [if_neg hz] at hr
          simp at hr
      rcases hv : (g'.lines.getD i' CacheLine.default).inner with _ | w
      · rw [hv] at h; simp at h
      · rw [hv] at h
        simp only [Prod.mk.injEq, RetOutcome.ok.injEq] at h
        obtain ⟨⟨hii, hvv⟩, hg2, hev⟩ := h
        subst hii
        subst hvv
        subst hev
        refine ⟨g', rfl, hzero.1, ?_, by simpa [lineVal] using hv⟩
        rw [← hg2, hzero.2]

/-! ### The packed-tags invariant (non-empty lines form a contiguous
initial segment of the array) -/

def TagsPacked (g : CacheGroup) : Prop :=
  ∀ j, j < g.lines.length → ∀ i, i ≤ j → lineTag g i = 0 → lineTag g j = 0

theorem packed_of_lines_eq {g g' : CacheGroup} (h : g'.lines = g.lines)
    (hp : TagsPacked g) : TagsPacked g' := by
  intro j hj i hi h0
  simp only [lineTag, h] at h0 ⊢
  rw [h] at hj
  exact hp j hj i hi h0

theorem packed_of_eqTags {g g' : CacheGroup} (hlen : g'.lines.length = g.lines.length)
    (htags : ∀ k, lineTag g' k = lineTag g k) (hp : TagsPacked g) : TagsPacked g' := by
  intro j hj i hi h0
  rw [htags] at h0 ⊢
  exact hp j (by omega) i hi h0

theorem load_preserves_packed {L t : Nat} (ht : t ≠ 0) (g : CacheGroup)
    (lr : Option Val) (so : Bool) (hp : TagsPacked g) :
    TagsPacked ((CacheGroup.load L t g lr so).2.1) := by
  rcases hs : g.slot L t with _ | s
  · rw [load_none_eq hs lr so]
    exact hp
  rcases s with j | j | j
  · -- Hit: tags unchanged
    rw [load_hit_eq hs lr so]
    refine packed_of_eqTags ?_ ?_ hp
    · simp [length_setLru, length_bumpBelow]
    · intro k
      simp only [lineTag]
      rw [tag_setLru, tag_bumpBelow]
  · -- Empty
    obtain ⟨hlen, htag0, hbefore⟩ := slot_empty_facts hs
    rcases lr with _ | v
    · rw [load_empty_fail_eq hs so]
      refine packed_of_eqTags ?_ ?_ hp
      · simp [length_setLru, length_bumpLru]
      · intro k
        simp only [lineTag]
        rw [tag_setLru, tag_bumpLru]
    · rw [load_empty_ok_eq hs v so]
      intro j' hj' i' hi' h0
      simp only [lineTag, CacheGroup.mk.injEq] at h0 ⊢
      simp only [List.length_map, length_install, length_setLru, length_bumpLru, bumpLru] at hj'
      have hlen2 : j < (setLru (bumpLru g.lines) j 0).length := by
        rw [length_setLru, length_bumpLru]; exact hlen
      by_cases hij : i' = j
      · subst hij
        rw [tag_install_self _ _ _ _ hlen2] at h0
        exact absurd h0 ht
      · rw [tag_install_of_ne _ _ _ _ _ hij, tag_setLru, tag_bumpLru] at h0
        by_cases hjj : j' = j
        · subst hjj
          have hi'lt : i' < j' := by omega
          exact absurd h0 (hbefore i' hi'lt).2
        · rw [tag_install_of_ne _ _ _ _ _ hjj, tag_setLru, tag_bumpLru]
          exact hp j' hj' i' hi' h0
  · -- Evict: every line of `g` is non-empty, and the modified line stays
    -- non-empty in every outcome, so packedness is vacuous or transfers.
    obtain ⟨hlen, _, hall⟩ := slot_evict_facts hs
    have main : ∀ gl : CacheGroup, gl.lines.length = g.lines.length →
        (∀ k, k ≠ j → lineTag gl k = lineTag g k) →
        (lineTag gl j ≠ 0) → TagsPacked gl := by
      intro gl hlenl htagsl htagj j' hj' i' hi' h0
      by_cases hij : i' = j
      · subst hij
        exact absurd h0 htagj
      · rw [htagsl i' hij] at h0
        have : i' < g.lines.length := by omega
        exact absurd h0 (hall i' this).2
    have htagsj : lineTag g j ≠ 0 := (hall j hlen).2
    cases hin : Flag.in_using (g.flags.getD j 0) with
    | true =>
      rw [load_busy_eq hs hin lr so]
      refine packed_of_eqTags ?_ ?_ hp
      · simp [length_setLru, length_bumpLru]
      · intro k
        simp only [lineTag]
        rw [tag_setLru, tag_bumpLru]
    | false =>
      cases hd : Flag.is_dirty (g.flags.getD j 0) with
      | false =>
        rcases lr with _ | v
        · rw [load_evict_clean_fail_eq hs hin hd so]
          refine packed_of_eqTags ?_ ?_ hp
          · simp [length_setLru, length_bumpLru]
          · intro k
            simp only [lineTag]
            rw [tag_setLru, tag_bumpLru]
        · rw [load_evict_clean_ok_eq hs hin hd v so]
          have hlen2 : j < (setLru (bumpLru g.lines) j 0).length := by
            rw [length_setLru, length_bumpLru]; exact hlen
          refine main _ ?_ ?_ ?_
          · simp [length_install, length_setLru, length_bumpLru]
          · intro k hk
            simp only [lineTag]
            rw [tag_install_of_ne _ _ _ _ _ hk, tag_setLru, tag_bumpLru]
          · simp only [lineTag]
            rw [tag_install_self _ _ _ _ hlen2]
            exact ht
      | true =>
        rcases hv : lineVal g j with _ | v
        · rw [load_evict_dirty_unwrap_eq hs hin hd hv lr so]
          refine packed_of_eqTags ?_ ?_ hp
          · simp [length_setLru, length_bumpLru]
          · intro k
            simp only [lineTag]
            rw [tag_setLru, tag_bumpLru]
        · cases so with
          | false =>
            rw [load_evict_dirty_store_fail_eq hs hin hd hv lr]
            refine packed_of_eqTags ?_ ?_ hp
            · simp [length_takeInner, length_setLru, length_bumpLru]
            · intro k
              simp only [lineTag]
              rw [tag_takeInner, tag_setLru, tag_bumpLru]
          | true =>
            rcases lr with _ | w
            · rw [load_evict_dirty_load_fail_eq hs hin hd hv]
              refine packed_of_eqTags ?_ ?_ hp
              · simp [length_takeInner, length_setLru, length_bumpLru]
              · intro k
                simp only [lineTag]
                rw [tag_takeInner, tag_setLru, tag_bumpLru]
            · rw [load_evict_dirty_ok_eq hs hin hd hv w]
              have hlen2 : j < (takeInner (setLru (bumpLru g.lines) j 0) j).length := by
                rw [length_takeInner, length_setLru, length_bumpLru]; exact hlen
              refine main _ ?_ ?_ ?_
              · simp [length_install, length_takeInner, length_setLru, length_bumpLru]
              · intro k hk
                simp only [lineTag]
                rw [tag_install_of_ne _ _ _ _ _ hk, tag_takeInner, tag_setLru, tag_bumpLru]
              · simp only [lineTag]
                rw [tag_install_self _ _ _ _ hlen2]
                exact ht

theorem step_preserves_packed {L : Nat} {g g' : CacheGroup}
    (hstep : Step L g g') (hp : TagsPacked g) : TagsPacked g' := by
  cases hstep with
  | get t lr so g ht =>
    exact packed_of_lines_eq (retrieve_lines_eq L t g lr so)
      (load_preserves_packed ht g lr so hp)
  | get_mut t lr so g ht =>
    exact packed_of_lines_eq (retrieve_mut_lines_eq L t g lr so)
      (load_preserves_packed ht g lr so hp)
  | ref_drop i g => exact packed_of_lines_eq rfl hp
  | mut_drop i g => exact packed_of_lines_eq rfl hp
  | mut_deref i g => exact packed_of_lines_eq rfl hp

theorem packed_init (L : Nat) : TagsPacked (CacheGroup.default L) := by
  intro j hj i hi h0
  simp only [lineTag, CacheGroup.default, List.getD, List.get?_eq_getElem?,
    List.getElem?_replicate]
  split <;> rfl

theorem reach_packed {L : Nat} {g : CacheGroup} (h : Reach L g) : TagsPacked g := by
  induction h with
  | init => exact packed_init L
  | step _ hstep ih => exact step_preserves_packed hstep ih

/-! ### Bounded flag-word facts -/

set_option maxRecDepth 2048 in
theorem set_dirty_is_dirty : ∀ f, f < 256 → Flag.is_dirty (Flag.set_dirty f) = true := by
  decide

set_option maxRecDepth 2048 in
theorem end_write_keeps_dirty :
    ∀ f, f < 256 → Flag.is_dirty (Flag.end_write f) = Flag.is_dirty f := by
  decide

theorem set_clean_not_dirty (f : Nat) : Flag.is_dirty (Flag.set_clean f) = false := by
  unfold Flag.is_dirty Flag.set_clean
  rw [Nat.and_assoc]
  have h : (127 : Nat) &&& 128 = 0 := by decide
  rw [h]
  simp

/-! ### Concrete states used by the claim theorems -/

/-- One-line group holding tag 1 with the dirty bit set and no holders. -/
def dirtyLineGroup : CacheGroup := ⟨[⟨0, 1, some 7⟩], [128]⟩

/-- States of a `Cache<1,2>` group along the trace
`get tag1 (load ok)`, `get tag2 (load fails)`, `get tag3 (load ok)`. -/
def traceG1 : CacheGroup :=
  (CacheGroup.retrieve 2 1 (CacheGroup.default 2) (some 10) true).2.1

def traceG2 : CacheGroup := (CacheGroup.retrieve 2 2 traceG1 none true).2.1

def traceG3 : CacheGroup := (CacheGroup.retrieve 2 3 traceG2 (some 20) true).2.1

/-- Singleton-group `retrieve_mut` computation: on a one-line group whose
line holds the requested tag, `get_mut` succeeds exactly when the whole
flag word is zero, and otherwise fails `Locked`. -/
theorem retrieve_mut_singleton (t lru0 f : Nat) (v : Val) (lr : Option Val) (so : Bool) :
    CacheGroup.retrieve_mut 1 t ⟨[⟨lru0, t, some v⟩], [f]⟩ lr so
      = if f = 0 then (.ok 0 v, ⟨[⟨0, t, some v⟩], [1]⟩, [])
        else (.err .Locked, ⟨[⟨0, t, some v⟩], [f]⟩, []) := by
  have hs : CacheGroup.slot 1 t ⟨[⟨lru0, t, some v⟩], [f]⟩ = some (.Hit 0) := by
    simp [CacheGroup.slot, slotAux]
  have hl := load_hit_eq hs lr so
  unfold CacheGroup.retrieve_mut
  rw [hl]
  dsimp only
  have hlines : setLru (bumpBelow
      (((⟨[⟨lru0, t, some v⟩], [f]⟩ : CacheGroup).lines.getD 0 CacheLine.default).lru)
      (⟨[⟨lru0, t, some v⟩], [f]⟩ : CacheGroup).lines) 0 0 = [⟨0, t, some v⟩] := by
    simp [setLru, bumpBelow]
  rw [hlines]
  unfold Flag.write
  by_cases hf : f = 0
  · subst hf
    simp
  · simp [hf]

/-! ### Claim theorems -/

/-- Claim C1, counterexample: a flag word with only the dirty bit set
(`0b1000_0000`: no writer, no readers — `in_using` is false) refuses write
admission, and `get_mut` on a line in that state returns `Locked`.  This
contradicts the claim that admission depends only on bit 0 and the reader
count and that the dirty bit has no effect. -/
theorem c1_cex_dirty_blocks_write :
    Flag.in_using 128 = false ∧
    Flag.write 128 = none ∧
    (CacheGroup.retrieve_mut 1 1 ⟨[⟨0, 1, some 5⟩], [128]⟩ (some 0) true).1
      = .err .Locked := by
  decide

/-- Claim C1, amended: `Flag::write` succeeds — installing word 1, the
writer bit — if and only if the entire flag word (writer bit, reader count,
and dirty bit) is zero.  Hence `get_mut` on a singleton group whose line
holds the requested tag succeeds iff the flag word is 0, and is refused
with `Locked` whenever a writer, a reader, or the dirty bit is present. -/
theorem c1_write_admission_whole_word (f lru0 t v : Nat) (lr : Option Val) (so : Bool) :
    (Flag.write f = some 1 ↔ f = 0) ∧
    ((CacheGroup.retrieve_mut 1 t ⟨[⟨lru0, t, some v⟩], [f]⟩ lr so).1 = .ok 0 v ↔ f = 0) ∧
    (f ≠ 0 →
      (CacheGroup.retrieve_mut 1 t ⟨[⟨lru0, t, some v⟩], [f]⟩ lr so).1 = .err .Locked) ∧
    (f = 0 →
      lineFlag (CacheGroup.retrieve_mut 1 t ⟨[⟨lru0, t, some v⟩], [f]⟩ lr so).2.1 0 = 1) := by
  refine ⟨?_, ?_, ?_, ?_⟩
  · unfold Flag.write
    by_cases hf : f = 0
    · simp [hf]
    · simp [hf]
  · rw [retrieve_mut_singleton]
    by_cases hf : f = 0
    · simp [hf]
    · simp [hf]
  · intro hf
    rw [retrieve_mut_singleton]
    simp [hf]
  · intro hf
    rw [retrieve_mut_singleton]
    simp [hf, lineFlag]

theorem c1_write_admission_whole_word_witness :
    Flag.write 0 = some 1 ∧
    (CacheGroup.retrieve_mut 1 1 ⟨[⟨0, 1, some 5⟩], [128]⟩ (some 0) true).1
      = .err .Locked ∧
    lineFlag (CacheGroup.retrieve_mut 1 1 ⟨[⟨0, 1, some 5⟩], [0]⟩ (some 0) true).2.1 0
      = 1 :=
  ⟨(c1_write_admission_whole_word 0 0 1 5 (some 0) true).1.mpr rfl,
   (c1_write_admission_whole_word 128 0 1 5 (some 0) true).2.2.1 (by decide),
   (c1_write_admission_whole_word 0 0 1 5 (some 0) true).2.2.2 rfl⟩

/-- Claim C2, counterexample: on a fresh one-line group, a failing
`T::load()` is not silently consumed and no default is installed: `get`
returns `Io` and the line stays empty.  This contradicts the claim that the
installed value equals `T::default()` and that the load error never
surfaces as `Io`. -/
theorem c2_cex_load_error_surfaces :
    (CacheGroup.retrieve 1 1 (CacheGroup.default 1) none true).1 = .err .Io ∧
    lineVal (CacheGroup.retrieve 1 1 (CacheGroup.default 1) none true).2.1 0 = none ∧
    lineTag (CacheGroup.retrieve 1 1 (CacheGroup.default 1) none true).2.1 0 = 0 := by
  decide

/-- Claim C2, amended: whenever installation is required (the slot decision
is Empty or Evict) and `T::load()` fails, the `Io` error propagates to the
caller — the code has no `load_or_default`, so `T::default()` is never
consulted and the requested tag is never installed.  In the Empty branch
and the clean-Evict branch nothing but the LRU ranks changes.  In the
dirty-Evict branch the failing load is reached only after a successful
writeback, so the evicted line keeps its old tag but its value has been
moved out and its dirty bit cleared; every other line's tag, value and
flag are unchanged. -/
theorem c2_load_error_propagates (L t : Nat) (g : CacheGroup) (so : Bool) :
    (∀ i, g.slot L t = some (CacheSlot.Empty i) →
      (CacheGroup.load L t g none so).1 = .err .Io ∧
      (CacheGroup.load L t g none so).2.2 = [.loadCall t] ∧
      ((CacheGroup.load L t g none so).2.1).flags = g.flags ∧
      (∀ k, lineTag (CacheGroup.load L t g none so).2.1 k = lineTag g k) ∧
      (∀ k, lineVal (CacheGroup.load L t g none so).2.1 k = lineVal g k)) ∧
    (∀ i, g.slot L t = some (CacheSlot.Evict i) →
      Flag.in_using (lineFlag g i) = false →
      Flag.is_dirty (lineFlag g i) = false →
      (CacheGroup.load L t g none so).1 = .err .Io ∧
      (CacheGroup.load L t g none so).2.2 = [.loadCall t] ∧
      ((CacheGroup.load L t g none so).2.1).flags = g.flags ∧
      (∀ k, lineTag (CacheGroup.load L t g none so).2.1 k = lineTag g k) ∧
      (∀ k, lineVal (CacheGroup.load L t g none so).2.1 k = lineVal g k)) ∧
    (∀ i v, g.slot L t = some (CacheSlot.Evict i) →
      Flag.in_using (lineFlag g i) = false →
      Flag.is_dirty (lineFlag g i) = true →
      lineVal g i = some v →
      (CacheGroup.load L t g none true).1 = .err .Io ∧
      (CacheGroup.load L t g none true).2.2 = [.storeCall v, .loadCall t] ∧
      lineTag (CacheGroup.load L t g none true).2.1 i = lineTag g i ∧
      lineVal (CacheGroup.load L t g none true).2.1 i = none ∧
      Flag.is_dirty (lineFlag (CacheGroup.load L t g none true).2.1 i) = false ∧
      (∀ k, k ≠ i →
        lineTag (CacheGroup.load L t g none true).2.1 k = lineTag g k ∧
        lineVal (CacheGroup.load L t g none true).2.1 k = lineVal g k ∧
        lineFlag (CacheGroup.load L t g none true).2.1 k = lineFlag g k)) := by
  refine ⟨?_, ?_, ?_⟩
  · intro i hs
    rw [load_empty_fail_eq hs so]
    refine ⟨rfl, rfl, rfl, ?_, ?_⟩
    · intro k
      simp only [lineTag]
      rw [tag_setLru, tag_bumpLru]
    · intro k
      simp only [lineVal]
      rw [inner_setLru, inner_bumpLru]
  · intro i hs hin hd
    simp only [lineFlag] at hin hd
    rw [load_evict_clean_fail_eq hs hin hd so]
    refine ⟨rfl, rfl, rfl, ?_, ?_⟩
    · intro k
      simp only [lineTag]
      rw [tag_setLru, tag_bumpLru]
    · intro k
      simp only [lineVal]
      rw [inner_setLru, inner_bumpLru]
  · intro i v hs hin hd hv
    simp only [lineFlag] at hin hd
    obtain ⟨hlen, _, _⟩ := slot_evict_facts hs
    rw [load_evict_dirty_load_fail_eq hs hin hd hv]
    have hlen2 : i < (setLru (bumpLru g.lines) i 0).length := by
      rw [length_setLru, length_bumpLru]; exact hlen
    have hlenF : i < g.flags.length := by
      by_contra hcon
      push_neg at hcon
      rw [getD_oob _ _ _ hcon] at hd
      simp [Flag.is_dirty] at hd
    refine ⟨rfl, rfl, ?_, ?_, ?_, ?_⟩
    · simp only [lineTag]
      rw [tag_takeInner, tag_setLru, tag_bumpLru]
    · simp only [lineVal]
      rw [inner_takeInner_self _ _ hlen2]
    · simp only [lineFlag]
      rw [getD_set, if_pos ⟨rfl, hlenF⟩]
      exact set_clean_not_dirty _
    · intro k hk
      refine ⟨?_, ?_, ?_⟩
      · simp only [lineTag]
        rw [tag_takeInner, tag_setLru, tag_bumpLru]
      · simp only [lineVal]
        rw [inner_takeInner_of_ne _ _ _ hk, inner_setLru, inner_bumpLru]
      · simp only [lineFlag]
        rw [getD_set, if_neg (fun hc => hk hc.1)]

theorem c2_load_error_propagates_witness :
    (CacheGroup.load 1 1 (CacheGroup.default 1) none true).1 = .err .Io ∧
    lineTag (CacheGroup.load 1 1 (CacheGroup.default 1) none true).2.1 0
      = lineTag (CacheGroup.default 1) 0 ∧
    (CacheGroup.load 1 2 dirtyLineGroup none true).1 = .err .Io ∧
    (CacheGroup.load 1 2 dirtyLineGroup none true).2.2 = [.storeCall 7, .loadCall 2] ∧
    Flag.is_dirty (lineFlag (CacheGroup.load 1 2 dirtyLineGroup none true).2.1 0) = false :=
  ⟨((c2_load_error_propagates 1 1 (CacheGroup.default 1) true).1 0 (by decide)).1,
   ((c2_load_error_propagates 1 1 (CacheGroup.default 1) true).1 0 (by decide)).2.2.2.1 0,
   ((c2_load_error_propagates 1 2 dirtyLineGroup true).2.2 0 7 (by decide) (by decide)
      (by decide) (by decide)).1,
   ((c2_load_error_propagates 1 2 dirtyLineGroup true).2.2 0 7 (by decide) (by decide)
      (by decide) (by decide)).2.1,
   ((c2_load_error_propagates 1 2 dirtyLineGroup true).2.2 0 7 (by decide) (by decide)
      (by decide) (by decide)).2.2.2.2.1⟩

/-- Claim C3, code bug, evaluated at the failing input: a one-line group
whose line is dirty and holds a value; a `get` of another tag picks the
Evict branch, the writeback `store()` fails.  The `Io` error is returned,
but the line is left with tag 1 (non-zero), no value, and the dirty bit
still set — invariant I1 (`tag = 0` iff value absent) is violated, the
value is neither restored nor the line emptied, and a subsequent group
drop panics on `unwrap` (modelled as `none`). -/
theorem c3_store_fail_breaks_I1 :
    (CacheGroup.load 1 2 dirtyLineGroup (some 9) false).1 = .err .Io ∧
    lineTag (CacheGroup.load 1 2 dirtyLineGroup (some 9) false).2.1 0 = 1 ∧
    lineVal (CacheGroup.load 1 2 dirtyLineGroup (some 9) false).2.1 0 = none ∧
    Flag.is_dirty (lineFlag (CacheGroup.load 1 2 dirtyLineGroup (some 9) false).2.1 0)
      = true ∧
    dropGroup (fun _ => true) (CacheGroup.load 1 2 dirtyLineGroup (some 9) false).2.1
      = none := by
  decide

/-- Claim C4, code bug, evaluated at the failing input: from a fresh
`Cache<1,2>` group, the sequence `get tag1` (load ok), `get tag2` (load
fails with Io), `get tag3` (load ok), `get tag4` drives the group into a
state violating I2: after the failed call the sole non-empty line has rank
1 instead of 0 (ranks were bumped before the fallible load), and on the
fourth call the group is full with ranks `{2, 0}` so no line has rank
`L - 1 = 1`: `slot` returns `None` and `load` executes the
`unreachable!()` branch (modelled as `panicked`). -/
theorem c4_reachable_unreachable :
    (CacheGroup.retrieve 2 1 (CacheGroup.default 2) (some 10) true).1 = .ok 0 10 ∧
    (CacheGroup.retrieve 2 2 traceG1 none true).1 = .err .Io ∧
    (CacheGroup.retrieve 2 3 traceG2 (some 20) true).1 = .ok 1 20 ∧
    lineTag traceG2 0 = 1 ∧ lineTag traceG2 1 = 0 ∧ lineLru traceG2 0 = 1 ∧
    lineLru traceG3 0 = 2 ∧ lineLru traceG3 1 = 0 ∧
    lineTag traceG3 0 ≠ 0 ∧ lineTag traceG3 1 ≠ 0 ∧
    CacheGroup.slot 2 4 traceG3 = none ∧
    (CacheGroup.load 2 4 traceG3 (some 30) true).1 = .panicked := by
  decide

/-- Claim C5, counterexample: in a group state whose line 0 is empty and
whose line 1 holds the requested tag 5, the scan returns `Empty 0`, not
`Hit 1`: the short-circuit on the first empty line pre-empts a later hit,
so the stated global precedence Hit > Empty fails on such states. -/
theorem c5_cex_empty_preempts_hit :
    lineTag (⟨[⟨0, 0, none⟩, ⟨0, 5, some 1⟩], [0, 0]⟩ : CacheGroup) 1 = 5 ∧
    CacheGroup.slot 2 5 ⟨[⟨0, 0, none⟩, ⟨0, 5, some 1⟩], [0, 0]⟩
      = some (.Empty 0) ∧
    CacheGroup.slot 2 5 ⟨[⟨0, 0, none⟩, ⟨0, 5, some 1⟩], [0, 0]⟩
      ≠ some (.Hit 1) := by
  decide

/-- Claim C5, amended: the scan stops at the first line that is a hit or
empty: `Hit i` at the first matching index provided no empty line occurs at
a lower index; `Empty e` at the lowest empty index provided no match occurs
at a lower index; and when no line matches and none is empty, `Evict j` for
the unique line with `lru = L - 1`. -/
theorem c5_slot_precedence (L t : Nat) (g : CacheGroup) (ht : t ≠ 0) :
    (∀ i, i < g.lines.length → lineTag g i = t →
      (∀ k, k < i → lineTag g k ≠ t ∧ lineTag g k ≠ 0) →
      CacheGroup.slot L t g = some (.Hit i)) ∧
    (∀ e, e < g.lines.length → lineTag g e = 0 →
      (∀ k, k < e → lineTag g k ≠ t ∧ lineTag g k ≠ 0) →
      CacheGroup.slot L t g = some (.Empty e)) ∧
    (∀ j, (∀ k, k < g.lines.length → lineTag g k ≠ t ∧ lineTag g k ≠ 0) →
      j < g.lines.length → lineLru g j = L - 1 →
      (∀ k, k < g.lines.length → k ≠ j → lineLru g k ≠ L - 1) →
      CacheGroup.slot L t g = some (.Evict j)) := by
  refine ⟨?_, ?_, ?_⟩
  · intro i hi htag hbef
    have h := slotAux_hit_complete L t g.lines 0 none i hi htag hbef
    simpa [CacheGroup.slot] using h
  · intro e he htag hbef
    have h := slotAux_empty_complete L t ht g.lines 0 none e he htag hbef
    simpa [CacheGroup.slot] using h
  · intro j hall hj hlru huniq
    have h := slotAux_evict_complete L t g.lines 0 none j hall hj hlru
      (fun m hm1 hm2 => huniq m hm2 (by omega))
    simpa [CacheGroup.slot] using h

theorem c5_slot_precedence_witness :
    CacheGroup.slot 1 7 ⟨[⟨0, 7, some 3⟩], [0]⟩ = some (.Hit 0) :=
  (c5_slot_precedence 1 7 ⟨[⟨0, 7, some 3⟩], [0]⟩ (by decide)).1 0
    (by decide) (by decide) (by decide)

/-- Claim C6: on a Hit the engine performs no `Cacheable` call (no reload,
no store) and changes no line's value, tag or flag (hence no dirty bit);
the only state change is the LRU rule: ranks strictly below the hit line's
old rank are incremented and the hit line's rank becomes 0.  Consequently,
after any successful `get` of `t` returning value `v` at line `i`, that
line has rank 0 and a second `get` of `t` returns the same `i` and `v`
with an empty call list, leaving the rank at 0 again. -/
theorem c6_hit_frame_and_reget (L t : Nat) (g : CacheGroup) (lr : Option Val) (so : Bool) :
    (∀ i, g.slot L t = some (CacheSlot.Hit i) →
      (CacheGroup.load L t g lr so).1 = .ok i ∧
      (CacheGroup.load L t g lr so).2.2 = [] ∧
      ((CacheGroup.load L t g lr so).2.1).flags = g.flags ∧
      (∀ k, lineTag (CacheGroup.load L t g lr so).2.1 k = lineTag g k) ∧
      (∀ k, lineVal (CacheGroup.load L t g lr so).2.1 k = lineVal g k) ∧
      (∀ k, k < g.lines.length →
        lineLru (CacheGroup.load L t g lr so).2.1 k =
          if k = i then 0
          else if lineLru g k < lineLru g i then (lineLru g k + 1) % 256
          else lineLru g k)) ∧
    (∀ i v g2 ev, CacheGroup.retrieve L t g lr so = (.ok i v, g2, ev) →
      lineLru g2 i = 0 ∧
      ∀ lr' so',
        (CacheGroup.retrieve L t g2 lr' so').1 = .ok i v ∧
        (CacheGroup.retrieve L t g2 lr' so').2.2 = [] ∧
        lineLru (CacheGroup.retrieve L t g2 lr' so').2.1 i = 0) := by
  constructor
  · intro i hs
    obtain ⟨hlen, htag, _⟩ := slot_hit_facts hs
    rw [load_hit_eq hs lr so]
    refine ⟨rfl, rfl, rfl, ?_, ?_, ?_⟩
    · intro k
      simp only [lineTag]
      rw [tag_setLru, tag_bumpBelow]
    · intro k
      simp only [lineVal]
      rw [inner_setLru, inner_bumpBelow]
    · intro k hk
      by_cases hki : k = i
      · subst hki
        have hb : k < (bumpBelow ((g.lines.getD k CacheLine.default).lru) g.lines).length := by
          rw [length_bumpBelow]; exact hlen
        simp only [lineLru]
        rw [lru_setLru_self _ _ _ hb]
        simp
      · rw [if_neg hki]
        simp only [lineLru]
        rw [lru_setLru_of_ne _ _ _ _ hki, lru_bumpBelow _ _ _ hk]
  · intro i v g2 ev h
    obtain ⟨g', f', hl, hr, hg2, hv⟩ := retrieve_ok_facts h
    obtain ⟨hilen, hlenL, hlenF, htag', hlru', hbef'⟩ := load_ok_facts hl
    subst hg2
    constructor
    · exact hlru'
    · intro lr' so'
      have hs2 : CacheGroup.slot L t { g' with flags := g'.flags.set i f' }
          = some (CacheSlot.Hit i) := by
        have h2 := slotAux_hit_complete L t g'.lines 0 none i (by omega) htag' hbef'
        simpa [CacheGroup.slot] using h2
      have hload2 := load_hit_eq hs2 lr' so'
      have hilen' : i < g'.lines.length := by omega
      unfold CacheGroup.retrieve
      rw [hload2]
      dsimp only
      obtain ⟨f'', hr2⟩ :
          ∃ f'', Flag.read ((g'.flags.set i f').getD i 0) = some f'' := by
        by_cases hlt : i < g'.flags.length
        · rw [getD_set, if_pos ⟨rfl, hlt⟩]
          exact ⟨(f' + 2) % 256, read_parity hr⟩
        · rw [List.set_eq_of_length_le (by omega)]
          exact ⟨f', hr⟩
      rw [hr2]
      dsimp only
      have hv2 : ((setLru (bumpBelow ((g'.lines.getD i CacheLine.default).lru) g'.lines) i 0).getD
          i CacheLine.default).inner = some v := by
        rw [inner_setLru, inner_bumpBelow]
        exact hv
      rw [hv2]
      refine ⟨rfl, rfl, ?_⟩
      simp only [lineLru]
      rw [lru_setLru_self]
      rw [length_bumpBelow]
      exact hilen'

theorem c6_hit_frame_and_reget_witness :
    (CacheGroup.load 1 1 ⟨[⟨0, 1, some 4⟩], [0]⟩ (some 99) true).1 = .ok 0 ∧
    (CacheGroup.retrieve 1 1 ⟨[⟨0, 1, some 4⟩], [2]⟩ none false).1 = .ok 0 4 :=
  ⟨((c6_hit_frame_and_reget 1 1 ⟨[⟨0, 1, some 4⟩], [0]⟩ (some 99) true).1 0 (by decide)).1,
   (((c6_hit_frame_and_reget 1 1 ⟨[⟨0, 1, some 4⟩], [0]⟩ (some 99) true).2 0 4
      ⟨[⟨0, 1, some 4⟩], [2]⟩ [] (by decide)).2 none false).1⟩

/-- Claim C7: a `CacheMut` marks its line dirty exactly on mutable
dereference.  `deref_mut`'s flag action (`set_dirty`) turns the dirty bit
on unconditionally; `CacheMut::drop` (`end_write`) clears only the writer
bit, never changing the dirty bit; and right after a successful `get_mut`
the flag word is exactly 1 (writer bit only, dirty clear), so dropping the
guard without a mutable dereference leaves the dirty bit clear while a
mutable dereference sets it. -/
theorem c7_deref_mut_dirty (f : Nat) (hf : f < 256) {L t : Nat} {g : CacheGroup}
    {lr : Option Val} {so : Bool} {i : Nat} {v : Val} {g2 : CacheGroup} {ev : List Event}
    (hflen : g.flags.length = g.lines.length)
    (h : CacheGroup.retrieve_mut L t g lr so = (.ok i v, g2, ev)) :
    Flag.is_dirty (Flag.set_dirty f) = true ∧
    Flag.is_dirty (Flag.end_write f) = Flag.is_dirty f ∧
    lineFlag g2 i = 1 ∧
    Flag.is_dirty (lineFlag (dropMut g2 i) i) = false ∧
    Flag.is_dirty (lineFlag (derefMut g2 i) i) = true := by
  obtain ⟨g', hl, hz, hg2, hv⟩ := retrieve_mut_ok_facts h
  obtain ⟨hilen, hlenL, hlenF, _, _, _⟩ := load_ok_facts hl
  subst hg2
  have hiF : i < g'.flags.length := by
    rw [hlenF, hflen]
    exact hilen
  have hflag : lineFlag { g' with flags := g'.flags.set i 1 } i = 1 := by
    simp only [lineFlag]
    rw [getD_set, if_pos ⟨rfl, hiF⟩]
  refine ⟨set_dirty_is_dirty f hf, end_write_keeps_dirty f hf, hflag, ?_, ?_⟩
  · simp only [dropMut, lineFlag] at hflag ⊢
    rw [hflag]
    rw [getD_set, if_pos ⟨rfl, by simpa using hiF⟩]
    decide
  · simp only [derefMut, lineFlag] at hflag ⊢
    rw [hflag]
    rw [getD_set, if_pos ⟨rfl, by simpa using hiF⟩]
    decide

theorem c7_deref_mut_dirty_witness :
    Flag.is_dirty (Flag.set_dirty 0) = true ∧
    Flag.is_dirty (Flag.end_write 0) = Flag.is_dirty 0 ∧
    lineFlag (⟨[⟨0, 1, some 5⟩], [1]⟩ : CacheGroup) 0 = 1 ∧
    Flag.is_dirty (lineFlag (dropMut ⟨[⟨0, 1, some 5⟩], [1]⟩ 0) 0) = false ∧
    Flag.is_dirty (lineFlag (derefMut ⟨[⟨0, 1, some 5⟩], [1]⟩ 0) 0) = true :=
  @c7_deref_mut_dirty 0 (by decide) 1 1 ⟨[⟨0, 1, some 5⟩], [0]⟩ (some 0) true 0 5
    ⟨[⟨0, 1, some 5⟩], [1]⟩ [] (by decide) (by decide)

/-- Claim C8: when the slot decision is `Evict i` and line `i` is in use
(writer bit or a non-zero reader count), `load` returns `Busy`, makes no
`Cacheable` call, leaves every line's tag and value and every flag
(including the dirty bit) unchanged, and only the LRU ranks move (all
bumped by one, line `i` then reset to 0). -/
theorem c8_busy_preserves_line {L t : Nat} {g : CacheGroup} {i : Nat}
    (hs : g.slot L t = some (CacheSlot.Evict i))
    (hin : Flag.in_using (g.flags.getD i 0) = true) (lr : Option Val) (so : Bool) :
    (CacheGroup.load L t g lr so).1 = .err .Busy ∧
    (CacheGroup.load L t g lr so).2.2 = [] ∧
    ((CacheGroup.load L t g lr so).2.1).flags = g.flags ∧
    (∀ k, lineTag (CacheGroup.load L t g lr so).2.1 k = lineTag g k) ∧
    (∀ k, lineVal (CacheGroup.load L t g lr so).2.1 k = lineVal g k) ∧
    (∀ k, k < g.lines.length → lineLru (CacheGroup.load L t g lr so).2.1 k
      = if k = i then 0 else (lineLru g k + 1) % 256) := by
  obtain ⟨hlen, _, _⟩ := slot_evict_facts hs
  rw [load_busy_eq hs hin lr so]
  refine ⟨rfl, rfl, rfl, ?_, ?_, ?_⟩
  · intro k
    simp only [lineTag]
    rw [tag_setLru, tag_bumpLru]
  · intro k
    simp only [lineVal]
    rw [inner_setLru, inner_bumpLru]
  · intro k hk
    by_cases hki : k = i
    · subst hki
      have hb : k < (bumpLru g.lines).length := by
        rw [length_bumpLru]; exact hlen
      simp only [lineLru]
      rw [lru_setLru_self _ _ _ hb]
      simp
    · rw [if_neg hki]
      simp only [lineLru]
      rw [lru_setLru_of_ne _ _ _ _ hki, lru_bumpLru _ _ hk]

theorem c8_busy_preserves_line_witness :
    (CacheGroup.load 1 2 ⟨[⟨0, 1, some 5⟩], [2]⟩ (some 9) true).1 = .err .Busy ∧
    ((CacheGroup.load 1 2 ⟨[⟨0, 1, some 5⟩], [2]⟩ (some 9) true).2.1).flags = [2] :=
  ⟨(@c8_busy_preserves_line 1 2 ⟨[⟨0, 1, some 5⟩], [2]⟩ 0 (by decide) (by decide)
      (some 9) true).1,
   (@c8_busy_preserves_line 1 2 ⟨[⟨0, 1, some 5⟩], [2]⟩ 0 (by decide) (by decide)
      (some 9) true).2.2.1⟩

/-- The list of store calls made by `CacheGroup::drop`, one per dirty
line, in index order. -/
theorem dropGroupAux_eq (so : Val → Bool) :
    ∀ (ls : List CacheLine) (fs : List Nat),
      (∀ p ∈ ls.zip fs, Flag.is_dirty p.2 = true → p.1.inner.isSome) →
      dropGroupAux so ls fs =
        some ((ls.zip fs).filterMap fun p =>
          if Flag.is_dirty p.2 then p.1.inner.map Event.storeCall else none) := by
  intro ls
  induction ls with
  | nil =>
    intro fs _
    cases fs <;> rfl
  | cons l ls ih =>
    intro fs hwf
    cases fs with
    | nil => rfl
    | cons f fs =>
      rw [dropGroupAux]
      by_cases hd : Flag.is_dirty f
      · rw [if_pos hd]
        have hsome : l.inner.isSome := hwf (l, f) (by simp) hd
        rcases hvl : l.inner with _ | v
        · rw [hvl] at hsome
          simp at hsome
        · dsimp only
          rw [ih fs (fun p hp hdp => hwf p (by simp [hp]) hdp)]
          simp [hd, hvl]
      · rw [if_neg hd]
        rw [ih fs (fun p hp hdp => hwf p (by simp [hp]) hdp)]
        have hd' : Flag.is_dirty f = false := by
          revert hd
          cases Flag.is_dirty f <;> simp
        simp [hd']

/-- Claim C9: dropping a group invokes `store()` exactly once for each line
whose dirty bit is set — in index order — and for no other line, and the
`store` outcomes (`so`) are discarded (`.ok()`): the drop completes with
the same call list whatever the outcomes, so `Io` errors are swallowed.
The hypothesis — every dirty line holds a value — is invariant I1/I4,
which holds in every state the bugs of C3/C4 do not produce. -/
theorem c9_drop_stores_dirty_exactly (g : CacheGroup)
    (h : ∀ p ∈ g.lines.zip g.flags, Flag.is_dirty p.2 = true → p.1.inner.isSome)
    (so : Val → Bool) :
    dropGroup so g =
      some ((g.lines.zip g.flags).filterMap fun p =>
        if Flag.is_dirty p.2 then p.1.inner.map Event.storeCall else none) :=
  dropGroupAux_eq so g.lines g.flags h

theorem c9_drop_stores_dirty_exactly_witness :
    dropGroup (fun _ => false) ⟨[⟨0, 1, some 7⟩, ⟨1, 2, some 8⟩], [128, 0]⟩
      = some [.storeCall 7] := by
  have h := c9_drop_stores_dirty_exactly ⟨[⟨0, 1, some 7⟩, ⟨1, 2, some 8⟩], [128, 0]⟩
    (by decide) (fun _ => false)
  simpa using h

/-- Claim C10: in every group state reachable from a fresh cache by any
sequence of `get`/`get_mut` calls (successful or failed), guard drops and
mutable dereferences, the non-empty lines occupy a contiguous prefix of
the line array: every line with tag 0 has a strictly higher index than
every line with a non-zero tag. -/
theorem c10_empty_lines_form_tail {L : Nat} {g : CacheGroup} (h : Reach L g) :
    ∀ i, i < g.lines.length → ∀ j, j < g.lines.length →
      lineTag g i = 0 → lineTag g j ≠ 0 → j < i := by
  intro i hi j hj h0 hnz
  by_contra hc
  push_neg at hc
  exact hnz (reach_packed h j hj i hc h0)

theorem c10_empty_lines_form_tail_witness : (0 : Nat) < 1 :=
  c10_empty_lines_form_tail
    (Reach.step Reach.init (Step.get 1 (some 10) true (CacheGroup.default 2) (by decide)))
    1 (by decide) 0 (by decide) (by decide) (by decide)

end RomCache
